import Mathlib

/-!
Shallow embedding of `app/main.py` of the fastapi-todo repository.

The service keeps all tasks in a process-local Python dict
`_todos : dict[int, TodoIn]` together with an id generator
`_id_counter = itertools.count(1)`.  A Python dict is insertion-ordered:
assigning to a fresh key appends the entry at the end, assigning to a
present key overwrites the value in place, and `del` removes the entry.
We model the dict as an association list `List (Int × TodoIn)` with
exactly these operations, and the counter as the `Int` it will yield next.

Request bodies are validated by pydantic (`TodoIn`): `title : str` must be
present and a JSON string; `description : Optional[str] = None` may be
absent, `null`, or a string.  We model a raw JSON body field by a small
JSON-value type and validation by `validate_todo_in`.
-/

namespace FastapiTodo

/-- A JSON value, as far as the two body fields can observe it. -/
inductive JVal where
  | jnull : JVal
  | jstr (s : String) : JVal
  | jint (n : Int) : JVal
  | jbool (b : Bool) : JVal
deriving DecidableEq, Repr

/-- The raw request body for POST /todos and PUT /todos/:id, before
pydantic validation: each field is present with some JSON value or absent. -/
structure RawBody where
  title : Option JVal
  description : Option JVal
deriving DecidableEq, Repr

/-- pydantic model `TodoIn` (title plus optional description), after
successful validation. -/
structure TodoIn where
  title : String
  description : Option String
deriving DecidableEq, Repr

/-- pydantic model `TodoOut` (`TodoIn` plus the id). -/
structure TodoOut where
  id : Int
  title : String
  description : Option String
deriving DecidableEq, Repr

/-- The errors the handler layer can produce: a pydantic validation
error (HTTP 422) or an `HTTPException(404, detail)`. -/
inductive ApiError where
  | validationError : ApiError
  | notFound (detail : String) : ApiError
deriving DecidableEq, Repr

/-- Validation of the optional `description` field: absent and `null`
both become `None`; a string stays; anything else is a type error. -/
def descValue : Option JVal → Option (Option String)
  | none => some none
  | some JVal.jnull => some none
  | some (JVal.jstr d) => some (some d)
  | some (JVal.jint _) => none
  | some (JVal.jbool _) => none

/-- pydantic validation of a raw body against `TodoIn`: `title` must be a
JSON string (missing or wrongly typed fails), `description` as in
`descValue`.  There is no non-emptiness check on `title`. -/
def validate_todo_in (b : RawBody) : Except ApiError TodoIn :=
  match b.title, descValue b.description with
  | some (JVal.jstr t), some d => Except.ok ⟨t, d⟩
  | _, _ => Except.error ApiError.validationError

/-- The dict assignment `d[k] = v`: overwrite in place when the key is
present, append at the end when it is fresh. -/
def dictSet : List (Int × TodoIn) → Int → TodoIn → List (Int × TodoIn)
  | [], k, v => [(k, v)]
  | (k', v') :: rest, k, v =>
    if k' = k then (k, v) :: rest else (k', v') :: dictSet rest k v

/-- The dict deletion `del d[k]`: remove the entry with key `k`. -/
def dictDel : List (Int × TodoIn) → Int → List (Int × TodoIn)
  | [], _ => []
  | (k', v') :: rest, k =>
    if k' = k then rest else (k', v') :: dictDel rest k

/-- The dict access `d[k]` / membership test `k in d`. -/
def dictGet : List (Int × TodoIn) → Int → Option TodoIn
  | [], _ => none
  | (k', v') :: rest, k => if k' = k then some v' else dictGet rest k

/-- The keys of the dict, in insertion order. -/
def keys (d : List (Int × TodoIn)) : List Int := d.map Prod.fst

/-- The whole mutable state of the process: the dict `_todos` and the
next value `_id_counter` will yield. -/
structure AppState where
  todos : List (Int × TodoIn)
  idCounter : Int
deriving DecidableEq, Repr

/-- The state at process start: empty dict, counter at 1. -/
def initState : AppState := ⟨[], 1⟩

/-- `create_todo`: draw the next id from the counter, insert the task,
return it with its id.  Never fails. -/
def create_todo (s : AppState) (todo : TodoIn) : TodoOut × AppState :=
  (⟨s.idCounter, todo.title, todo.description⟩,
   ⟨dictSet s.todos s.idCounter todo, s.idCounter + 1⟩)

/-- `list_todos`: all tasks, in the dict's (insertion) order. -/
def list_todos (s : AppState) : List TodoOut :=
  s.todos.map (fun p => ⟨p.1, p.2.title, p.2.description⟩)

/-- `get_todo`: 404 when the id is absent, otherwise the task. -/
def get_todo (s : AppState) (todo_id : Int) : Except ApiError TodoOut :=
  match dictGet s.todos todo_id with
  | none => Except.error (ApiError.notFound "Todo not found")
  | some t => Except.ok ⟨todo_id, t.title, t.description⟩

/-- `update_todo`: 404 when the id is absent (no upsert), otherwise
overwrite the entry in place and return the new task.  The counter is
untouched. -/
def update_todo (s : AppState) (todo_id : Int) (todo : TodoIn) :
    Except ApiError TodoOut × AppState :=
  if (dictGet s.todos todo_id).isSome then
    (Except.ok ⟨todo_id, todo.title, todo.description⟩,
     ⟨dictSet s.todos todo_id todo, s.idCounter⟩)
  else
    (Except.error (ApiError.notFound "Todo not found"), s)

/-- `delete_todo`: 404 when the id is absent, otherwise remove the
entry (HTTP 204, empty body). -/
def delete_todo (s : AppState) (todo_id : Int) :
    Except ApiError Unit × AppState :=
  if (dictGet s.todos todo_id).isSome then
    (Except.ok (), ⟨dictDel s.todos todo_id, s.idCounter⟩)
  else
    (Except.error (ApiError.notFound "Todo not found"), s)

/-- POST /todos at the HTTP boundary: pydantic validation first, then
`create_todo`; a validation failure leaves the state untouched. -/
def post_todos (s : AppState) (body : RawBody) :
    Except ApiError TodoOut × AppState :=
  match validate_todo_in body with
  | Except.error e => (Except.error e, s)
  | Except.ok todo => ((Except.ok (create_todo s todo).1), (create_todo s todo).2)

/-- PUT /todos/:id at the HTTP boundary: pydantic validation first, then
`update_todo`; a validation failure leaves the state untouched. -/
def put_todos (s : AppState) (todo_id : Int) (body : RawBody) :
    Except ApiError TodoOut × AppState :=
  match validate_todo_in body with
  | Except.error e => (Except.error e, s)
  | Except.ok todo => update_todo s todo_id todo

/-- One client request against the store (the arguments a handler
receives after validation). -/
inductive Op where
  | create (todo : TodoIn) : Op
  | get (id : Int) : Op
  | listAll : Op
  | update (id : Int) (todo : TodoIn) : Op
  | delete (id : Int) : Op
deriving DecidableEq, Repr

/-- The state after serving one request. -/
def step (s : AppState) : Op → AppState
  | Op.create t => (create_todo s t).2
  | Op.get _ => s
  | Op.listAll => s
  | Op.update i t => (update_todo s i t).2
  | Op.delete i => (delete_todo s i).2

/-- The state after serving a sequence of requests. -/
def run (s : AppState) (ops : List Op) : AppState :=
  ops.foldl step s

/-- The ids handed out by the creates of a request sequence, in order of
issuance (every create succeeds). -/
def issuedIds (s : AppState) : List Op → List Int
  | [] => []
  | Op.create t :: rest => (create_todo s t).1.id :: issuedIds (step s (Op.create t)) rest
  | op :: rest => issuedIds (step s op) rest

/-- How many creates a request sequence contains (all succeed). -/
def countCreates : List Op → Nat
  | [] => 0
  | Op.create _ :: rest => countCreates rest + 1
  | _ :: rest => countCreates rest

/-- How many deletes of a request sequence succeed, starting from `s`. -/
def countSuccDeletes (s : AppState) : List Op → Nat
  | [] => 0
  | Op.delete i :: rest =>
    (if (dictGet s.todos i).isSome then 1 else 0)
      + countSuccDeletes (step s (Op.delete i)) rest
  | op :: rest => countSuccDeletes (step s op) rest

/-- The store invariant: the counter is at least its starting value 1,
keys are pairwise distinct, and every key was issued by the counter — at
least 1 and strictly below the next value. -/
def StoreInv (s : AppState) : Prop :=
  1 ≤ s.idCounter ∧ (keys s.todos).Nodup ∧
    ∀ k ∈ keys s.todos, 1 ≤ k ∧ k < s.idCounter

/-! ### Lemmas about the dict operations -/

theorem dictGet_dictSet_self (d : List (Int × TodoIn)) (k : Int) (v : TodoIn) :
    dictGet (dictSet d k v) k = some v := by
  induction d with
  | nil => simp [dictSet, dictGet]
  | cons p rest ih =>
    by_cases h : p.1 = k
    · simp [dictSet, dictGet, h]
    · simp [dictSet, dictGet, h, ih]

theorem dictGet_dictSet_ne (d : List (Int × TodoIn)) (k k' : Int) (v : TodoIn)
    (h : k' ≠ k) : dictGet (dictSet d k v) k' = dictGet d k' := by
  induction d with
  | nil =>
    simp only [dictSet, dictGet]
    rw [if_neg]
    intro h1
    exact h h1.symm
  | cons p rest ih =>
    by_cases hp : p.1 = k
    · subst hp
      simp [dictSet, dictGet, h, Ne.symm h]
    · by_cases hp' : p.1 = k'
      · simp [dictSet, dictGet, hp, hp', h]
      · simp [dictSet, dictGet, hp, hp', ih]

theorem mem_keys_iff_isSome (d : List (Int × TodoIn)) (k : Int) :
    k ∈ keys d ↔ (dictGet d k).isSome := by
  induction d with
  | nil => simp [keys, dictGet]
  | cons p rest ih =>
    have hk : keys (p :: rest) = p.1 :: keys rest := rfl
    by_cases hp : p.1 = k
    · simp [hk, dictGet, hp]
    · rw [hk, List.mem_cons, dictGet, if_neg hp, ← ih]
      constructor
      · rintro (h1 | h1)
        · exact absurd h1.symm hp
        · exact h1
      · exact Or.inr

theorem keys_dictSet_of_mem (d : List (Int × TodoIn)) (k : Int) (v : TodoIn)
    (h : k ∈ keys d) : keys (dictSet d k v) = keys d := by
  induction d with
  | nil => simp [keys] at h
  | cons p rest ih =>
    by_cases hp : p.1 = k
    · simp [dictSet, hp, keys]
    · have hmem : k ∈ keys rest := by
        rcases (by simpa [keys] using h) with h1 | h1
        · exact absurd h1.symm hp
        · simpa [keys] using h1
      have ih1 := ih hmem
      simp only [keys, List.map_cons] at ih1 ⊢
      simp [dictSet, hp, ih1]

theorem dictSet_of_not_mem (d : List (Int × TodoIn)) (k : Int) (v : TodoIn)
    (h : dictGet d k = none) : dictSet d k v = d ++ [(k, v)] := by
  induction d with
  | nil => simp [dictSet]
  | cons p rest ih =>
    by_cases hp : p.1 = k
    · simp [dictGet, hp] at h
    · simp [dictGet, hp] at h
      simp [dictSet, hp, ih h]

theorem length_dictSet_of_mem (d : List (Int × TodoIn)) (k : Int) (v : TodoIn)
    (h : k ∈ keys d) : (dictSet d k v).length = d.length := by
  have := keys_dictSet_of_mem d k v h
  have h1 : (keys (dictSet d k v)).length = (keys d).length := by rw [this]
  simpa [keys] using h1

theorem dictDel_sublist (d : List (Int × TodoIn)) (k : Int) :
    (dictDel d k).Sublist d := by
  induction d with
  | nil => simp [dictDel]
  | cons p rest ih =>
    by_cases hp : p.1 = k
    · simp [dictDel, hp]
    · simpa [dictDel, hp] using List.Sublist.cons₂ p ih

theorem dictGet_dictDel_ne (d : List (Int × TodoIn)) (k k' : Int)
    (h : k' ≠ k) : dictGet (dictDel d k) k' = dictGet d k' := by
  induction d with
  | nil => simp [dictDel]
  | cons p rest ih =>
    by_cases hp : p.1 = k
    · subst hp
      simp [dictDel, dictGet, Ne.symm h]
    · by_cases hp' : p.1 = k'
      · simp [dictDel, dictGet, hp, hp', h]
      · simp [dictDel, dictGet, hp, hp', ih]

theorem dictGet_dictDel_self (d : List (Int × TodoIn)) (k : Int)
    (hnd : (keys d).Nodup) : dictGet (dictDel d k) k = none := by
  induction d with
  | nil => simp [dictDel, dictGet]
  | cons p rest ih =>
    have hnd1 : (p.1 :: keys rest).Nodup := hnd
    have hnotmem : p.1 ∉ keys rest := (List.nodup_cons.mp hnd1).1
    have hnd' : (keys rest).Nodup := (List.nodup_cons.mp hnd1).2
    by_cases hp : p.1 = k
    · subst hp
      have hnone : dictGet rest p.1 = none := by
        rw [← Option.not_isSome_iff_eq_none]
        intro hs
        exact hnotmem ((mem_keys_iff_isSome rest p.1).mpr hs)
      simpa [dictDel] using hnone
    · simp [dictDel, dictGet, hp, ih hnd']

theorem length_dictDel_of_mem (d : List (Int × TodoIn)) (k : Int)
    (h : k ∈ keys d) : (dictDel d k).length + 1 = d.length := by
  induction d with
  | nil => simp [keys] at h
  | cons p rest ih =>
    by_cases hp : p.1 = k
    · simp [dictDel, hp]
    · have hmem : k ∈ keys rest := by
        rcases (by simpa [keys] using h) with h1 | h1
        · exact absurd h1.symm hp
        · simpa [keys] using h1
      simp [dictDel, hp]
      exact ih hmem

theorem keys_dictDel_subset (d : List (Int × TodoIn)) (k : Int) :
    ∀ m ∈ keys (dictDel d k), m ∈ keys d := by
  intro m hm
  have hsub : (keys (dictDel d k)).Sublist (keys d) := (dictDel_sublist d k).map Prod.fst
  exact hsub.mem hm

theorem keys_dictDel_nodup (d : List (Int × TodoIn)) (k : Int)
    (hnd : (keys d).Nodup) : (keys (dictDel d k)).Nodup :=
  ((dictDel_sublist d k).map Prod.fst).nodup hnd

/-! ### The store invariant and its preservation -/

theorem storeInv_initState : StoreInv initState := by
  constructor
  · simp [initState]
  constructor
  · simp [initState, keys]
  · intro k hk
    simp [initState, keys] at hk

theorem create_fresh (s : AppState) (h : StoreInv s) :
    dictGet s.todos s.idCounter = none := by
  rw [← Option.not_isSome_iff_eq_none]
  intro hs
  have hmem := (mem_keys_iff_isSome s.todos s.idCounter).mpr hs
  exact absurd (h.2.2 s.idCounter hmem).2 (lt_irrefl s.idCounter)

theorem create_todo_todos (s : AppState) (t : TodoIn) (h : StoreInv s) :
    (create_todo s t).2.todos = s.todos ++ [(s.idCounter, t)] := by
  simp [create_todo, dictSet_of_not_mem s.todos s.idCounter t (create_fresh s h)]

theorem update_todo_idCounter (s : AppState) (i : Int) (t : TodoIn) :
    (update_todo s i t).2.idCounter = s.idCounter := by
  by_cases h : (dictGet s.todos i).isSome <;> simp [update_todo, h]

theorem delete_todo_idCounter (s : AppState) (i : Int) :
    (delete_todo s i).2.idCounter = s.idCounter := by
  by_cases h : (dictGet s.todos i).isSome <;> simp [delete_todo, h]

theorem storeInv_step (s : AppState) (op : Op) (h : StoreInv s) :
    StoreInv (step s op) := by
  obtain ⟨hc, hnd, hbound⟩ := h
  cases op with
  | create t =>
    have hfresh : dictGet s.todos s.idCounter = none := create_fresh s ⟨hc, hnd, hbound⟩
    have htodos : (step s (Op.create t)).todos = s.todos ++ [(s.idCounter, t)] :=
      create_todo_todos s t ⟨hc, hnd, hbound⟩
    have hkeys : keys (step s (Op.create t)).todos = keys s.todos ++ [s.idCounter] := by
      simp [htodos, keys]
    have hcnt : (step s (Op.create t)).idCounter = s.idCounter + 1 := by
      simp [step, create_todo]
    refine ⟨by omega, ?_, ?_⟩
    · rw [hkeys]
      refine List.Nodup.append hnd (List.nodup_singleton _) ?_
      intro a ha hb
      have ha' := (hbound a ha).2
      have hb' : a = s.idCounter := by simpa using hb
      omega
    · intro k hk
      rw [hkeys] at hk
      rcases List.mem_append.mp hk with h1 | h1
      · have := hbound k h1
        omega
      · have h2 : k = s.idCounter := by simpa using h1
        omega
  | get i => exact ⟨hc, hnd, hbound⟩
  | listAll => exact ⟨hc, hnd, hbound⟩
  | update i t =>
    by_cases hi : (dictGet s.todos i).isSome
    · have himem : i ∈ keys s.todos := (mem_keys_iff_isSome s.todos i).mpr hi
      have hkeys : keys (step s (Op.update i t)).todos = keys s.todos := by
        simp [step, update_todo, hi, keys_dictSet_of_mem s.todos i t himem]
      have hcnt : (step s (Op.update i t)).idCounter = s.idCounter := by
        simp [step, update_todo, hi]
      refine ⟨by omega, ?_, ?_⟩
      · rw [hkeys]; exact hnd
      · intro k hk
        rw [hkeys] at hk
        rw [hcnt]
        exact hbound k hk
    · simp only [step, update_todo, hi, if_false]
      exact ⟨hc, hnd, hbound⟩
  | delete i =>
    by_cases hi : (dictGet s.todos i).isSome
    · have hkeys : (step s (Op.delete i)).todos = dictDel s.todos i := by
        simp [step, delete_todo, hi]
      have hcnt : (step s (Op.delete i)).idCounter = s.idCounter := by
        simp [step, delete_todo, hi]
      refine ⟨by omega, ?_, ?_⟩
      · rw [hkeys]
        exact keys_dictDel_nodup s.todos i hnd
      · intro k hk
        rw [hkeys] at hk
        rw [hcnt]
        exact hbound k (keys_dictDel_subset s.todos i k hk)
    · simp only [step, delete_todo, hi, if_false]
      exact ⟨hc, hnd, hbound⟩

theorem storeInv_run (s : AppState) (ops : List Op) (h : StoreInv s) :
    StoreInv (run s ops) := by
  induction ops generalizing s with
  | nil => exact h
  | cons op rest ih =>
    have h1 : run s (op :: rest) = run (step s op) rest := rfl
    rw [h1]
    exact ih (step s op) (storeInv_step s op h)

theorem idCounter_mono_step (s : AppState) (op : Op) :
    s.idCounter ≤ (step s op).idCounter := by
  cases op with
  | create t => simp [step, create_todo]
  | get i => simp [step]
  | listAll => simp [step]
  | update i t => rw [step, update_todo_idCounter]
  | delete i => rw [step, delete_todo_idCounter]

/-- An id that is absent and already strictly below the counter can never
come back: creates only issue ids at or above the counter, updates of it
fail with 404, deletes of it fail with 404. -/
theorem dictGet_run_none (ops : List Op) (s : AppState) (n : Int)
    (h : StoreInv s) (habs : dictGet s.todos n = none) (hlt : n < s.idCounter) :
    dictGet (run s ops).todos n = none := by
  induction ops generalizing s with
  | nil => exact habs
  | cons op rest ih =>
    have h1 : run s (op :: rest) = run (step s op) rest := rfl
    rw [h1]
    have hinv' := storeInv_step s op h
    have hlt' : n < (step s op).idCounter := lt_of_lt_of_le hlt (idCounter_mono_step s op)
    refine ih (step s op) hinv' ?_ hlt'
    cases op with
    | create t =>
      have htodos : (step s (Op.create t)).todos = s.todos ++ [(s.idCounter, t)] :=
        create_todo_todos s t h
      have hset : (step s (Op.create t)).todos = dictSet s.todos s.idCounter t := by
        simp [step, create_todo]
      rw [hset, dictGet_dictSet_ne s.todos s.idCounter n t (by omega)]
      exact habs
    | get i => exact habs
    | listAll => exact habs
    | update i t =>
      by_cases hi : (dictGet s.todos i).isSome
      · by_cases hin : i = n
        · subst hin
          rw [habs] at hi
          simp at hi
        · have : (step s (Op.update i t)).todos = dictSet s.todos i t := by
            simp [step, update_todo, hi]
          rw [this, dictGet_dictSet_ne s.todos i n t (fun h2 => hin h2.symm)]
          exact habs
      · simp only [step, update_todo, hi, if_false]
        exact habs
    | delete i =>
      by_cases hi : (dictGet s.todos i).isSome
      · have hdel : (step s (Op.delete i)).todos = dictDel s.todos i := by
          simp [step, delete_todo, hi]
        by_cases hin : i = n
        · subst hin
          rw [hdel]
          exact dictGet_dictDel_self s.todos i h.2.1
        · rw [hdel, dictGet_dictDel_ne s.todos i n (fun h2 => hin h2.symm)]
          exact habs
      · simp only [step, delete_todo, hi, if_false]
        exact habs

/-! ### The ids issued by the creates of a request sequence -/

/-- The arithmetic sequence `c, c+1, ..., c+n-1` of the `n` ids a counter
standing at `c` will issue next. -/
def rangeIds (c : Int) (n : Nat) : List Int :=
  (List.range n).map (fun k : Nat => c + (k : Int))

theorem rangeIds_succ (c : Int) (n : Nat) :
    rangeIds c (n + 1) = c :: rangeIds (c + 1) n := by
  rw [rangeIds, List.range_succ_eq_map, List.map_cons, List.map_map]
  refine congrArg₂ List.cons (by simp) ?_
  rw [rangeIds]
  refine congrArg (fun f => List.map f (List.range n)) ?_
  funext k
  simp [Function.comp]
  ring

theorem rangeIds_pairwise (c : Int) (n : Nat) :
    (rangeIds c n).Pairwise (· < ·) := by
  rw [rangeIds, List.pairwise_map]
  refine (List.pairwise_lt_range n).imp ?_
  intro a b hab
  have h1 : (a : Int) < (b : Int) := by exact_mod_cast hab
  omega

theorem issuedIds_eq (ops : List Op) (s : AppState) :
    issuedIds s ops = rangeIds s.idCounter (countCreates ops) := by
  induction ops generalizing s with
  | nil => simp [issuedIds, countCreates, rangeIds]
  | cons op rest ih =>
    cases op with
    | create t =>
      have h1 : issuedIds s (Op.create t :: rest)
          = s.idCounter :: issuedIds (step s (Op.create t)) rest := by
        simp [issuedIds, create_todo, step]
      have h2 : (step s (Op.create t)).idCounter = s.idCounter + 1 := by
        simp [step, create_todo]
      have h3 : countCreates (Op.create t :: rest) = countCreates rest + 1 := rfl
      rw [h1, ih (step s (Op.create t)), h2, h3, rangeIds_succ]
    | get i =>
      have h1 : issuedIds s (Op.get i :: rest) = issuedIds s rest := by
        simp [issuedIds, step]
      rw [h1, ih s]
      rfl
    | listAll =>
      have h1 : issuedIds s (Op.listAll :: rest) = issuedIds s rest := by
        simp [issuedIds, step]
      rw [h1, ih s]
      rfl
    | update i t =>
      have h1 : issuedIds s (Op.update i t :: rest)
          = issuedIds (step s (Op.update i t)) rest := rfl
      rw [h1, ih (step s (Op.update i t)), step, update_todo_idCounter]
      rfl
    | delete i =>
      have h1 : issuedIds s (Op.delete i :: rest)
          = issuedIds (step s (Op.delete i)) rest := rfl
      rw [h1, ih (step s (Op.delete i)), step, delete_todo_idCounter]
      rfl

/-! ### Length accounting: creates minus successful deletes -/

theorem run_length (ops : List Op) (s : AppState) (h : StoreInv s) :
    (run s ops).todos.length + countSuccDeletes s ops
      = s.todos.length + countCreates ops := by
  induction ops generalizing s with
  | nil => simp [run, countSuccDeletes, countCreates]
  | cons op rest ih =>
    have hrun : run s (op :: rest) = run (step s op) rest := rfl
    have ih' := ih (step s op) (storeInv_step s op h)
    cases op with
    | create t =>
      have htodos : (step s (Op.create t)).todos = s.todos ++ [(s.idCounter, t)] :=
        create_todo_todos s t h
      have hlen : (step s (Op.create t)).todos.length = s.todos.length + 1 := by
        simp [htodos]
      have hcd : countSuccDeletes s (Op.create t :: rest)
          = countSuccDeletes (step s (Op.create t)) rest := rfl
      have hcc : countCreates (Op.create t :: rest) = countCreates rest + 1 := rfl
      rw [hrun, hcd, hcc]
      omega
    | get i =>
      have hcd : countSuccDeletes s (Op.get i :: rest)
          = countSuccDeletes (step s (Op.get i)) rest := rfl
      have hcc : countCreates (Op.get i :: rest) = countCreates rest := rfl
      rw [hrun, hcd, hcc]
      have hst : step s (Op.get i) = s := rfl
      rw [hst] at ih' ⊢
      omega
    | listAll =>
      have hcd : countSuccDeletes s (Op.listAll :: rest)
          = countSuccDeletes (step s Op.listAll) rest := rfl
      have hcc : countCreates (Op.listAll :: rest) = countCreates rest := rfl
      rw [hrun, hcd, hcc]
      have hst : step s Op.listAll = s := rfl
      rw [hst] at ih' ⊢
      omega
    | update i t =>
      have hcd : countSuccDeletes s (Op.update i t :: rest)
          = countSuccDeletes (step s (Op.update i t)) rest := rfl
      have hcc : countCreates (Op.update i t :: rest) = countCreates rest := rfl
      have hlen : (step s (Op.update i t)).todos.length = s.todos.length := by
        by_cases hi : (dictGet s.todos i).isSome
        · have himem : i ∈ keys s.todos := (mem_keys_iff_isSome s.todos i).mpr hi
          simp [step, update_todo, hi, length_dictSet_of_mem s.todos i t himem]
        · simp [step, update_todo, hi]
      rw [hrun, hcd, hcc]
      omega
    | delete i =>
      by_cases hi : (dictGet s.todos i).isSome
      · have himem : i ∈ keys s.todos := (mem_keys_iff_isSome s.todos i).mpr hi
        have hcd : countSuccDeletes s (Op.delete i :: rest)
            = 1 + countSuccDeletes (step s (Op.delete i)) rest := by
          simp [countSuccDeletes, hi]
        have hcc : countCreates (Op.delete i :: rest) = countCreates rest := rfl
        have hlen : (step s (Op.delete i)).todos.length + 1 = s.todos.length := by
          have hdel : (step s (Op.delete i)).todos = dictDel s.todos i := by
            simp [step, delete_todo, hi]
          rw [hdel]
          exact length_dictDel_of_mem s.todos i himem
        rw [hrun, hcd, hcc]
        omega
      · have hcd : countSuccDeletes s (Op.delete i :: rest)
            = countSuccDeletes (step s (Op.delete i)) rest := by
          simp [countSuccDeletes, hi]
        have hcc : countCreates (Op.delete i :: rest) = countCreates rest := rfl
        have hlen : (step s (Op.delete i)).todos.length = s.todos.length := by
          simp [step, delete_todo, hi]
        rw [hrun, hcd, hcc]
        omega

theorem countSuccDeletes_le (ops : List Op) (s : AppState) (h : StoreInv s) :
    countSuccDeletes s ops ≤ s.todos.length + countCreates ops := by
  have := run_length ops s h
  omega

theorem list_todos_map_id (s : AppState) :
    (list_todos s).map TodoOut.id = keys s.todos := by
  rw [list_todos, List.map_map]
  rfl

/-! ### The claims -/

/-- C1, counterexample: a body whose `title` is the empty string is
accepted by pydantic validation (the model has no non-emptiness
constraint), and the create goes through and modifies the store, contrary
to the claim that an empty title fails with a ValidationError and leaves
the store unmodified. -/
theorem claim_C1_counterexample :
    validate_todo_in ⟨some (JVal.jstr ""), none⟩ = Except.ok ⟨"", none⟩ ∧
    (post_todos initState ⟨some (JVal.jstr ""), none⟩).2 ≠ initState :=
  ⟨rfl, by decide⟩

/-- C1 (amended): for create (POST /todos) and update (PUT /todos/:id),
if the body's `title` is missing or not a string, the operation fails
with a ValidationError and the store is not modified; a body whose
`title` is a string — empty or not — and whose `description` is absent,
null or a string passes validation. -/
theorem claim_C1_validation (s : AppState) (i : Int) (b : RawBody) :
    ((∀ t, b.title ≠ some (JVal.jstr t)) →
      post_todos s b = (Except.error ApiError.validationError, s) ∧
      put_todos s i b = (Except.error ApiError.validationError, s)) ∧
    (∀ t d, b.title = some (JVal.jstr t) → descValue b.description = some d →
      validate_todo_in b = Except.ok ⟨t, d⟩) := by
  constructor
  · intro h
    have hv : validate_todo_in b = Except.error ApiError.validationError := by
      obtain ⟨tv, dv⟩ := b
      cases tv with
      | none => cases dv with
        | none => rfl
        | some w => cases w <;> rfl
      | some v =>
        cases v with
        | jstr t => exact absurd rfl (h t)
        | jnull => cases dv with
          | none => rfl
          | some w => cases w <;> rfl
        | jint m => cases dv with
          | none => rfl
          | some w => cases w <;> rfl
        | jbool bb => cases dv with
          | none => rfl
          | some w => cases w <;> rfl
    exact ⟨by simp [post_todos, hv], by simp [put_todos, hv]⟩
  · intro t d ht hd
    obtain ⟨tv, dv⟩ := b
    simp only at ht hd
    subst ht
    simp [validate_todo_in, hd]

/-- C1, witness for the amended claim: a numeric title is rejected with
the store untouched, and the scenario body `{"title": "Buy milk"}`
validates. -/
theorem claim_C1_validation_witness :
    post_todos initState ⟨some (JVal.jint 7), none⟩
      = (Except.error ApiError.validationError, initState) ∧
    validate_todo_in ⟨some (JVal.jstr "Buy milk"), none⟩
      = Except.ok ⟨"Buy milk", none⟩ := by
  constructor
  · exact ((claim_C1_validation initState 1 ⟨some (JVal.jint 7), none⟩).1
      (fun t h => by simp at h)).1
  · exact (claim_C1_validation initState 1 ⟨some (JVal.jstr "Buy milk"), none⟩).2
      "Buy milk" none rfl rfl

/-- C2: over any request sequence from the initial state, the ids issued
by the creates are pairwise distinct and strictly increasing in issuance
order, and are exactly 1, 2, ..., number-of-creates — so they start at 1
and an id is never issued twice, deletions notwithstanding. -/
theorem claim_C2_create_ids (ops : List Op) :
    (issuedIds initState ops).Pairwise (· < ·) ∧
    issuedIds initState ops = rangeIds 1 (countCreates ops) := by
  have h := issuedIds_eq ops initState
  have hc : initState.idCounter = 1 := rfl
  rw [hc] at h
  exact ⟨h ▸ rangeIds_pairwise 1 (countCreates ops), h⟩

/-- C3: a get of the id just returned by a create, with no operation in
between, succeeds and returns exactly the submitted title and
description under that id. -/
theorem claim_C3_get_after_create (s : AppState) (t : TodoIn) :
    get_todo (create_todo s t).2 (create_todo s t).1.id
      = Except.ok ⟨(create_todo s t).1.id, t.title, t.description⟩ := by
  simp [create_todo, get_todo, dictGet_dictSet_self]

/-- C4: an update of an id absent from the mapping fails with 404
"Todo not found" and returns the state unchanged — nothing is created,
the size is the same. -/
theorem claim_C4_update_absent (s : AppState) (n : Int) (t : TodoIn)
    (h : dictGet s.todos n = none) :
    update_todo s n t = (Except.error (ApiError.notFound "Todo not found"), s) := by
  simp [update_todo, h]

/-- C4, witness: updating the never-issued id 999 in the initial state
404s and changes nothing. -/
theorem claim_C4_update_absent_witness :
    update_todo initState 999 ⟨"Buy milk", none⟩
      = (Except.error (ApiError.notFound "Todo not found"), initState) :=
  claim_C4_update_absent initState 999 ⟨"Buy milk", none⟩ rfl

/-- C5: from any state satisfying the store invariant in which id `n` is
present, delete(n) succeeds (204), and a get of `n` after any further
request sequence — in particular immediately — fails with 404
"Todo not found": the id can never come back. -/
theorem claim_C5_delete_then_get (s : AppState) (n : Int)
    (h : StoreInv s) (hmem : (dictGet s.todos n).isSome) :
    (delete_todo s n).1 = Except.ok () ∧
    ∀ ops, get_todo (run (delete_todo s n).2 ops) n
      = Except.error (ApiError.notFound "Todo not found") := by
  constructor
  · simp [delete_todo, hmem]
  · intro ops
    have hs2 : (delete_todo s n).2 = ⟨dictDel s.todos n, s.idCounter⟩ := by
      simp [delete_todo, hmem]
    have hinv : StoreInv (delete_todo s n).2 := storeInv_step s (Op.delete n) h
    have habs : dictGet (delete_todo s n).2.todos n = none := by
      rw [hs2]
      exact dictGet_dictDel_self s.todos n h.2.1
    have hlt : n < (delete_todo s n).2.idCounter := by
      rw [hs2]
      exact (h.2.2 n ((mem_keys_iff_isSome s.todos n).mpr hmem)).2
    have h0 := dictGet_run_none ops (delete_todo s n).2 n hinv habs hlt
    simp [get_todo, h0]

/-- C5, witness: in a one-task store, deleting id 1 succeeds and the
immediate get of id 1 404s. -/
theorem claim_C5_delete_then_get_witness :
    (delete_todo ⟨[(1, ⟨"Buy milk", none⟩)], 2⟩ 1).1 = Except.ok () ∧
    get_todo (run (delete_todo ⟨[(1, ⟨"Buy milk", none⟩)], 2⟩ 1).2 []) 1
      = Except.error (ApiError.notFound "Todo not found") := by
  have h := claim_C5_delete_then_get ⟨[(1, ⟨"Buy milk", none⟩)], 2⟩ 1
    (by unfold StoreInv keys; decide) (by decide)
  exact ⟨h.1, h.2 []⟩

/-- C6: after any request sequence from the initial state, the length of
the sequence returned by GET /todos equals the number of creates (all
succeed) minus the number of successful deletes. -/
theorem claim_C6_list_length (ops : List Op) :
    (list_todos (run initState ops)).length
      = countCreates ops - countSuccDeletes initState ops := by
  have h := run_length ops initState storeInv_initState
  have h0 : initState.todos.length = 0 := rfl
  have hlen : (list_todos (run initState ops)).length
      = (run initState ops).todos.length := by
    simp [list_todos]
  omega

/-- C7: an update of a present id `n` returns the task under the same id
`n` with the new title and description, stores exactly that content under
`n`, leaves every other entry unchanged, and leaves the id counter
unchanged. -/
theorem claim_C7_update_frame (s : AppState) (n : Int) (t : TodoIn)
    (h : (dictGet s.todos n).isSome) :
    (update_todo s n t).1 = Except.ok ⟨n, t.title, t.description⟩ ∧
    dictGet (update_todo s n t).2.todos n = some t ∧
    (∀ m, m ≠ n → dictGet (update_todo s n t).2.todos m = dictGet s.todos m) ∧
    (update_todo s n t).2.idCounter = s.idCounter := by
  refine ⟨by simp [update_todo, h], ?_, ?_, update_todo_idCounter s n t⟩
  · simp [update_todo, h, dictGet_dictSet_self]
  · intro m hm
    simp [update_todo, h, dictGet_dictSet_ne s.todos n m t hm]

/-- C7, witness: replacing task 1 in a two-task store keeps id 1, stores
the new content, and leaves task 2 and the counter alone. -/
theorem claim_C7_update_frame_witness :
    (update_todo ⟨[(1, ⟨"a", none⟩), (2, ⟨"b", none⟩)], 3⟩ 1 ⟨"Buy oat milk", some "2L"⟩).1
      = Except.ok ⟨1, "Buy oat milk", some "2L"⟩ ∧
    dictGet (update_todo ⟨[(1, ⟨"a", none⟩), (2, ⟨"b", none⟩)], 3⟩ 1
        ⟨"Buy oat milk", some "2L"⟩).2.todos 1 = some ⟨"Buy oat milk", some "2L"⟩ ∧
    dictGet (update_todo ⟨[(1, ⟨"a", none⟩), (2, ⟨"b", none⟩)], 3⟩ 1
        ⟨"Buy oat milk", some "2L"⟩).2.todos 2
      = dictGet (⟨[(1, ⟨"a", none⟩), (2, ⟨"b", none⟩)], 3⟩ : AppState).todos 2 ∧
    (update_todo ⟨[(1, ⟨"a", none⟩), (2, ⟨"b", none⟩)], 3⟩ 1
        ⟨"Buy oat milk", some "2L"⟩).2.idCounter = 3 := by
  have h := claim_C7_update_frame ⟨[(1, ⟨"a", none⟩), (2, ⟨"b", none⟩)], 3⟩ 1
    ⟨"Buy oat milk", some "2L"⟩ (by decide)
  exact ⟨h.1, h.2.1, h.2.2.1 2 (by decide), h.2.2.2⟩

/-- C8: the list endpoint returns the entries in the dict's insertion
order — its id sequence is exactly the key sequence of the mapping, a
create appends its task at the end — and an update (of any id) leaves
the id sequence of the list unchanged: no reordering on update. -/
theorem claim_C8_list_order (s : AppState) (n : Int) (t : TodoIn)
    (h : StoreInv s) :
    (list_todos s).map TodoOut.id = keys s.todos ∧
    (∀ u, list_todos (create_todo s u).2
      = list_todos s ++ [⟨s.idCounter, u.title, u.description⟩]) ∧
    (list_todos (update_todo s n t).2).map TodoOut.id
      = (list_todos s).map TodoOut.id := by
  refine ⟨list_todos_map_id s, ?_, ?_⟩
  · intro u
    simp [list_todos, create_todo_todos s u h]
  · by_cases hi : (dictGet s.todos n).isSome
    · have himem : n ∈ keys s.todos := (mem_keys_iff_isSome s.todos n).mpr hi
      have hk : keys (update_todo s n t).2.todos = keys s.todos := by
        simp [update_todo, hi, keys_dictSet_of_mem s.todos n t himem]
      rw [list_todos_map_id, hk, list_todos_map_id]
    · simp [update_todo, hi]

/-- C8, witness: in a two-task store, the list's ids are the keys in
insertion order, a create appends at the end, and replacing task 1 does
not move it. -/
theorem claim_C8_list_order_witness :
    (list_todos ⟨[(1, ⟨"a", none⟩), (2, ⟨"b", none⟩)], 3⟩).map TodoOut.id = [1, 2] ∧
    list_todos (create_todo ⟨[(1, ⟨"a", none⟩), (2, ⟨"b", none⟩)], 3⟩ ⟨"c", none⟩).2
      = list_todos ⟨[(1, ⟨"a", none⟩), (2, ⟨"b", none⟩)], 3⟩ ++ [⟨3, "c", none⟩] ∧
    (list_todos (update_todo ⟨[(1, ⟨"a", none⟩), (2, ⟨"b", none⟩)], 3⟩ 1
        ⟨"z", none⟩).2).map TodoOut.id
      = (list_todos ⟨[(1, ⟨"a", none⟩), (2, ⟨"b", none⟩)], 3⟩).map TodoOut.id := by
  have h := claim_C8_list_order ⟨[(1, ⟨"a", none⟩), (2, ⟨"b", none⟩)], 3⟩ 1
    ⟨"z", none⟩ (by unfold StoreInv keys; decide)
  exact ⟨by rw [h.1]; decide, h.2.1 ⟨"c", none⟩, h.2.2⟩

/-- C9: a delete of an id absent from the mapping fails with 404
"Todo not found" and returns the state unchanged, and deleting it again
404s again with no further effect. -/
theorem claim_C9_delete_absent (s : AppState) (n : Int)
    (h : dictGet s.todos n = none) :
    delete_todo s n = (Except.error (ApiError.notFound "Todo not found"), s) ∧
    delete_todo (delete_todo s n).2 n
      = (Except.error (ApiError.notFound "Todo not found"), s) := by
  have h1 : delete_todo s n = (Except.error (ApiError.notFound "Todo not found"), s) := by
    simp [delete_todo, h]
  refine ⟨h1, ?_⟩
  rw [h1]
  exact h1

/-- C9, witness: deleting the never-created id 999 from the initial
state 404s, twice. -/
theorem claim_C9_delete_absent_witness :
    delete_todo initState 999 = (Except.error (ApiError.notFound "Todo not found"), initState) ∧
    delete_todo (delete_todo initState 999).2 999
      = (Except.error (ApiError.notFound "Todo not found"), initState) :=
  claim_C9_delete_absent initState 999 rfl

/-- C10: the store invariant — distinct keys, every key at least 1 and
strictly below the next counter value — holds initially and is preserved
by every operation; consequently the id a create is about to use is
absent, so the create appends a fresh entry and never overwrites an
existing one. -/
theorem claim_C10_invariant (s : AppState) (op : Op) (h : StoreInv s) :
    StoreInv initState ∧
    StoreInv (step s op) ∧
    dictGet s.todos s.idCounter = none ∧
    (∀ t, (create_todo s t).2.todos = s.todos ++ [(s.idCounter, t)]) :=
  ⟨storeInv_initState, storeInv_step s op h, create_fresh s h,
    fun t => create_todo_todos s t h⟩

/-- C10, witness: the invariant holds after one create from the initial
state, and that create appended rather than overwrote. -/
theorem claim_C10_invariant_witness :
    StoreInv initState ∧
    StoreInv (step ⟨[(1, ⟨"a", none⟩)], 2⟩ (Op.create ⟨"b", none⟩)) ∧
    dictGet (⟨[(1, ⟨"a", none⟩)], 2⟩ : AppState).todos 2 = none ∧
    (create_todo ⟨[(1, ⟨"a", none⟩)], 2⟩ ⟨"b", none⟩).2.todos
      = [(1, ⟨"a", none⟩), (2, ⟨"b", none⟩)] := by
  have h := claim_C10_invariant ⟨[(1, ⟨"a", none⟩)], 2⟩ (Op.create ⟨"b", none⟩)
    (by unfold StoreInv keys; decide)
  exact ⟨h.1, h.2.1, h.2.2.1, h.2.2.2 ⟨"b", none⟩⟩

end FastapiTodo
